import Mathlib

/-!
Verification of the core data pipeline of the `chart` command-line tool:
the line parser (`ParseLine`), the insertion-ordered label store
(`orderedMap`), the `Chart` aggregate with its sorting and rounding
queries, and the Mermaid and terminal renderers.

Numeric values (Go `float64`) are modeled as exact rationals (`ℚ`);
IEEE-754 binary rounding is not modeled.  Strings are modeled as Lean
`String`s, processed as their character lists (Go iterates runes or
bytes; for the character classes involved here the two coincide, and
UTF-8 byte order agrees with code-point order for the lexicographic
comparisons used by sorting).
-/

deriving instance DecidableEq for Except

namespace ChartSpec

/-- Character class of the Go regexp `[\s,;:|#]` bound to `dataSepRE` in the
source (`\s` in Go RE2 is `[\t\n\f\r ]`): the data separator characters. -/
def dataSepRE (c : Char) : Bool :=
  c == ' ' || c == '\t' || c == '\n' || c == '\x0c' || c == '\r' ||
  c == ',' || c == ';' || c == ':' || c == '|' || c == '#'

/-- Character class of the Go regexp `[\d\.]` bound to `floatRE` in the source:
digits and the decimal dot. -/
def floatRE (c : Char) : Bool :=
  c.isDigit || c == '.'

/-- Characters trimmed by Go `strings.TrimSpace`, i.e. `unicode.IsSpace`:
ASCII whitespace plus the Unicode White_Space code points. -/
def isGoSpace (c : Char) : Bool :=
  c == ' ' || c == '\t' || c == '\n' || c == '\x0b' || c == '\x0c' || c == '\r' ||
  c.toNat == 0x85 || c.toNat == 0xA0 || c.toNat == 0x1680 ||
  (0x2000 ≤ c.toNat && c.toNat ≤ 0x200A) ||
  c.toNat == 0x2028 || c.toNat == 0x2029 || c.toNat == 0x202F ||
  c.toNat == 0x205F || c.toNat == 0x3000

/-- Model of Go `strings.TrimSpace` on a character list: drop leading and
trailing `unicode.IsSpace` characters. -/
def trimSpace (s : List Char) : List Char :=
  ((s.dropWhile isGoSpace).reverse.dropWhile isGoSpace).reverse

/-- Numeric value of a digit character. -/
def digitVal (c : Char) : ℕ :=
  c.toNat - 48

/-- Value of a string of decimal digits (most significant first). -/
def digitsToNat (s : List Char) : ℕ :=
  s.foldl (fun a c => 10 * a + digitVal c) 0

/-- Model of Go `strings.TrimSuffix(s, ".")`: remove one trailing `.` when
present. -/
def trimSuffixDot (s : List Char) : List Char :=
  if s.getLast? = some '.' then s.dropLast else s

/-- Model of Go `strconv.ParseFloat(s, 64)` restricted to its reachable inputs
in this program: strings consisting only of digit and `.` characters (all other
characters have been stripped with `floatRE` before the call).  On that domain
parsing succeeds iff the string contains at least one digit and at most one
dot, and the result is the exact decimal value, modeled as a rational
(IEEE-754 binary rounding and float range overflow are not modeled). -/
def parseFloat (s : List Char) : Option ℚ :=
  if s.any Char.isDigit ∧ s.countP (fun c => c == '.') ≤ 1 then
    let intPart := s.takeWhile (fun c => c ≠ '.')
    let fracPart := (s.dropWhile (fun c => c ≠ '.')).drop 1
    some (mkRat (digitsToNat (intPart ++ fracPart)) (10 ^ fracPart.length))
  else none

/-- Multiplication on `ℚ` through `mkRat`.  The library's `Rat.mul` carries
`@[irreducible]`, which blocks `decide` on concrete charts; this definition
evaluates by kernel reduction and `ratMul_eq` identifies it with `*`. -/
def ratMul (x y : ℚ) : ℚ :=
  mkRat (x.num * y.num) (x.den * y.den)

/-- Addition on `ℚ` through `mkRat`; `ratAdd_eq` identifies it with `+`. -/
def ratAdd (x y : ℚ) : ℚ :=
  mkRat (x.num * y.den + y.num * x.den) (x.den * y.den)

/-- Reciprocal on `ℚ` through `mkRat`; `ratInv_eq` identifies it with `⁻¹`. -/
def ratInv (x : ℚ) : ℚ :=
  if x.num < 0 then mkRat (-(x.den : ℤ)) x.num.natAbs else mkRat (x.den : ℤ) x.num.natAbs

/-- Division on `ℚ` through `mkRat`; `ratDiv_eq` identifies it with `/`. -/
def ratDiv (x y : ℚ) : ℚ :=
  ratMul x (ratInv y)

/-- The four failure outcomes of `ParseLine`, named after the error messages
in the source (`missing data separator`, `missing label`, `missing value`,
`parsing %q as float64`). -/
inductive ParseError where
  | noSeparator
  | emptyLabel
  | emptyValue
  | invalidNumber
deriving DecidableEq, Repr

/-- Model of `ParseLine` from the chart package: find the first separator
character (`dataSepRE`), trim the region before it as the value and the region
after it as the label, require a non-empty label, strip the value region to
`floatRE` characters, drop one trailing dot, require the result non-empty, and
parse it as a float. -/
def ParseLine (line : String) : Except ParseError (ℚ × String) :=
  let cs := line.toList
  match cs.findIdx? dataSepRE with
  | none => .error .noSeparator
  | some i =>
    let value := trimSpace (cs.take i)
    let label := trimSpace (cs.drop (i + 1))
    if label = [] then .error .emptyLabel
    else
      let value := trimSuffixDot (value.filter floatRE)
      if value = [] then .error .emptyValue
      else
        match parseFloat value with
        | none => .error .invalidNumber
        | some q => .ok (q, label.asString)

/-- Model of Go `strconv.Atoi` (= `ParseInt(s, 10, 0)` on a 64-bit platform):
an optional sign followed by at least one digit, with the value required to
fit in `int64`. -/
def atoi (s : List Char) : Option ℤ :=
  let signDigits : ℤ × List Char :=
    match s with
    | '+' :: t => (1, t)
    | '-' :: t => (-1, t)
    | t => (1, t)
  let ds := signDigits.2
  if ds ≠ [] ∧ ds.all Char.isDigit then
    let n : ℤ := signDigits.1 * (digitsToNat ds : ℤ)
    if -(2 ^ 63) ≤ n ∧ n ≤ 2 ^ 63 - 1 then some n else none
  else none

/-- Model of `stringToInt` from the chart package: try `Atoi` on the whole
string; on failure, keep only `floatRE` characters (digits and dots) and try
`Atoi` on the result, with `0` on an empty remainder or a second failure. -/
def stringToInt (s : String) : ℤ :=
  match atoi s.toList with
  | some n => n
  | none =>
    let numStr := s.toList.filter floatRE
    if numStr = [] then 0
    else
      match atoi numStr with
      | some n => n
      | none => 0

/-- Model of `orderedMap`: a map of labels to data recording insertion order.
The Go struct pairs a hash map `m` with a key slice `k`; an association list
in insertion order models both (the `sync.RWMutex` only serializes individual
calls and has no observable effect in the sequential semantics). -/
structure orderedMap where
  entries : List (String × ℚ)
deriving DecidableEq, Repr

/-- Model of `newOrderedMap`. -/
def newOrderedMap : orderedMap :=
  ⟨[]⟩

/-- Model of `orderedMap.set`: overwrite the value when the key is present,
otherwise append the key to the insertion order and record the value. -/
def orderedMap.set (m : orderedMap) (key : String) (val : ℚ) : orderedMap :=
  if (m.entries.lookup key).isSome then
    ⟨m.entries.map fun e => if e.1 = key then (key, val) else e⟩
  else
    ⟨m.entries ++ [(key, val)]⟩

/-- Model of `orderedMap.get`. -/
def orderedMap.get (m : orderedMap) (key : String) : Option ℚ :=
  m.entries.lookup key

/-- Model of `orderedMap.keys`: the keys in insertion order (the source
returns a defensive copy, which is meaningless for a pure value). -/
def orderedMap.keys (m : orderedMap) : List String :=
  m.entries.map Prod.fst

/-- Model of `orderedMap.values`: values in key order read through the map,
as in the source (`for _, k := range m.k { vals = append(vals, m.m[k]) }`;
a missing key reads as `0` in Go, which cannot occur under the invariant). -/
def orderedMap.values (m : orderedMap) : List ℚ :=
  m.keys.map fun k => (m.entries.lookup k).getD 0

/-- Model of `SortOption` (`SortNone`, `SortByLabel`, `SortByLabelNumeric`,
`SortByValue`). -/
inductive SortOption where
  | sortNone
  | sortByLabel
  | sortByLabelNumeric
  | sortByValue
deriving DecidableEq, Repr

/-- Model of `SortDirection` (`OrderNone`, `OrderAsc`, `OrderDesc`). -/
inductive SortDirection where
  | orderNone
  | orderAsc
  | orderDesc
deriving DecidableEq, Repr

/-- Model of `Chart`: the data store plus sorting configuration; as in the
source, the field `p` stores `10^precision` (`math.Pow(10, precision)`), not
the precision itself. -/
structure Chart where
  data : orderedMap
  sort : SortOption
  sortDir : SortDirection
  p : ℚ
deriving DecidableEq, Repr

/-- The rational `10^n`, built with `mkRat` so that it evaluates by kernel
reduction (used for the `p = math.Pow(10, precision)` chart field). -/
def pow10 (n : ℕ) : ℚ :=
  mkRat (Int.ofNat (10 ^ n)) 1

/-- Model of `chart.New()` with no options: defaults `SortNone`, `OrderNone`,
precision `2` (so `p = 10^2`). -/
def Chart.new : Chart :=
  { data := newOrderedMap, sort := .sortNone, sortDir := .orderNone, p := pow10 2 }

/-- Model of the `WithSorting` chart option (never fails). -/
def WithSorting (sort : SortOption) (dir : SortDirection) (c : Chart) : Except String Chart :=
  .ok { c with sort := sort, sortDir := dir }

/-- Model of the `WithPrecision` chart option: a negative precision is clamped
to `0` before `c.p` is set to `10^p`; no error is ever returned. -/
def WithPrecision (p : ℤ) (c : Chart) : Except String Chart :=
  .ok { c with p := pow10 (if p < 0 then 0 else p).toNat }

/-- A chart as produced by `New(WithSorting(sort, dir), WithPrecision(prec))`
(see `newChart_eq_new_with_options` below). -/
def newChart (sort : SortOption) (dir : SortDirection) (prec : ℤ) : Chart :=
  { data := newOrderedMap, sort := sort, sortDir := dir,
    p := pow10 (if prec < 0 then 0 else prec).toNat }

/-- Model of `Chart.Set` (the `*Chart` return value for chaining is the
updated chart). -/
def Chart.Set (c : Chart) (label : String) (value : ℚ) : Chart :=
  { c with data := c.data.set label value }

/-- Model of `Chart.Add`: add to the existing value when the label is
registered, otherwise behave as `Set`. -/
def Chart.Add (c : Chart) (label : String) (value : ℚ) : Chart :=
  match c.data.get label with
  | some val => c.Set label (ratAdd value val)
  | none => c.Set label value

/-- Model of Go `cmp.Compare`: `-1` when below, `0` when equal, `+1` when
above. -/
def cmpCompare {β : Type} [LinearOrder β] (x y : β) : ℤ :=
  if x < y then -1 else if y < x then 1 else 0

/-- Model of Go `slices.SortStableFunc`: a stable sort, ascending with respect
to the comparator.  Stable sorting against a total preorder has a unique
result, so insertion sort is a faithful model. -/
def sortStableFunc {α : Type} (cmp : α → α → ℤ) (l : List α) : List α :=
  l.insertionSort fun a b => cmp a b ≤ 0

/-- Model of `Chart.Labels`: the keys in insertion order, stably sorted
according to the configured sort option, and reversed when the direction is
`OrderDesc`. -/
def Chart.Labels (c : Chart) : List String :=
  let labels := c.data.keys
  let labels :=
    match c.sort with
    | .sortByLabel => sortStableFunc cmpCompare labels
    | .sortByLabelNumeric =>
        sortStableFunc (fun i j => cmpCompare (stringToInt i) (stringToInt j)) labels
    | .sortByValue =>
        sortStableFunc
          (fun i j => cmpCompare ((c.data.get i).getD 0) ((c.data.get j).getD 0)) labels
    | .sortNone => labels
  if c.sortDir = .orderDesc then labels.reverse else labels

/-- Model of Go `math.Round`: round half away from zero. -/
def goRound (x : ℚ) : ℚ :=
  if x < 0 then mkRat (-Rat.floor (ratAdd (-x) (mkRat 1 2))) 1
  else mkRat (Rat.floor (ratAdd x (mkRat 1 2))) 1

/-- Model of `Chart.Value`: the stored value rounded to the configured
precision (`math.Round(val*c.p) / c.p`), or the `unknown label` error. -/
def Chart.Value (c : Chart) (label : String) : Except String ℚ :=
  match c.data.get label with
  | some val => .ok (ratDiv (goRound (ratMul val c.p)) c.p)
  | none => .error "unknown label"

/-- Model of `Chart.MaxValue`: `0` for an empty chart, otherwise the fold of
`if val > maxVal` starting from `0.0`, rounded to the configured precision. -/
def Chart.MaxValue (c : Chart) : ℚ :=
  let vals := c.data.values
  if vals = [] then 0
  else
    let maxVal := vals.foldl (fun m v => if m < v then v else m) 0
    ratDiv (goRound (ratMul maxVal c.p)) c.p

/-- Model of `Chart.MaxLabel`: the longest label, empty string for an empty
chart (first winner kept on ties, scanning insertion order). -/
def Chart.MaxLabel (c : Chart) : String :=
  let labels := c.data.keys
  if labels = [] then ""
  else labels.foldl (fun maxLabel label =>
    if maxLabel.length < label.length then label else maxLabel) ""

/-- One mutation of a chart through its public interface. -/
inductive ChartOp where
  | set (label : String) (value : ℚ)
  | add (label : String) (value : ℚ)
deriving DecidableEq

/-- The label an operation touches. -/
def ChartOp.label : ChartOp → String
  | .set l _ => l
  | .add l _ => l

/-- Apply one `Set`/`Add` operation. -/
def applyOp (c : Chart) : ChartOp → Chart
  | .set l v => c.Set l v
  | .add l v => c.Add l v

/-- Apply a sequence of `Set`/`Add` operations in order. -/
def applyOps (c : Chart) (ops : List ChartOp) : Chart :=
  ops.foldl applyOp c

/-- The first-occurrence order of a list of labels: each label listed at the
position of its first appearance. -/
def firstOccurrences (ls : List String) : List String :=
  ls.foldl (fun acc l => if l ∈ acc then acc else acc ++ [l]) []

/-- Sort key described by the specification for `ByLabelNumeric`: the
concatenation of all digit characters of the label, read as an (unbounded)
integer, with `0` for a label without digits.  This is the spec's wording,
kept separate from the source's `stringToInt` so the two can be compared. -/
def specNumericKey (s : String) : ℤ :=
  (digitsToNat (s.toList.filter Char.isDigit) : ℤ)

/-- The comparator `Labels` passes to the stable sort for each sorting mode
(`cmp.Compare` on the label, on `stringToInt` of the label, or on the label's
stored value; unused for `SortNone`). -/
def chartCmp (c : Chart) : String → String → ℤ :=
  match c.sort with
  | .sortByLabel => cmpCompare
  | .sortByLabelNumeric => fun i j => cmpCompare (stringToInt i) (stringToInt j)
  | .sortByValue => fun i j => cmpCompare ((c.data.get i).getD 0) ((c.data.get j).getD 0)
  | .sortNone => fun _ _ => 0

/-- Position `i` holds the first occurrence of a separator character in `cs`
(the positional notion used by the regexp's leftmost match). -/
@[reducible] def IsFirstSepIdx (cs : List Char) (i : ℕ) : Prop :=
  i < cs.length ∧ dataSepRE (cs.getD i ' ') = true ∧ ∀ j < i, dataSepRE (cs.getD j ' ') = false

/-- Fuel-driven worker for `countFactor`; structural recursion on the fuel so
that it evaluates by kernel reduction. -/
def countFactorAux (p : ℕ) : ℕ → ℕ → ℕ
  | 0, _ => 0
  | fuel + 1, n => if 1 < p ∧ n ≠ 0 ∧ n % p = 0 then 1 + countFactorAux p fuel (n / p) else 0

/-- Count of factors `p` in `n` (0 when `p ≤ 1` or `n = 0`); `n` itself is
always enough fuel. -/
def countFactor (p : ℕ) (n : ℕ) : ℕ :=
  countFactorAux p n n

/-- Model of Go `fmt.Sprintf("%g", v)` restricted to the values this program
renders: rationals with a terminating decimal expansion, inside the range
where `%g` uses plain decimal notation (every rendered chart value is of this
shape after precision rounding).  Prints the sign, the integer part, and the
shortest exact fractional part when it is nonzero.  A rational without a
terminating decimal expansion falls back to `num/den` (unreachable for
rendered chart values, and outside the modeled domain). -/
def formatG (x : ℚ) : String :=
  let sign := if x.num < 0 then "-" else ""
  let n := x.num.natAbs
  let d := x.den
  let a := countFactor 2 d
  let b := countFactor 5 d
  let k := max a b
  if 2 ^ a * 5 ^ b = d then
    let m := n * 10 ^ k / d
    let intPart := Nat.repr (m / 10 ^ k)
    let frac := m % 10 ^ k
    if frac = 0 then sign ++ intPart
    else
      let fracStr := Nat.repr frac
      let padded := String.mk (List.replicate (k - fracStr.length) '0') ++ fracStr
      sign ++ intPart ++ "." ++ padded
  else sign ++ Nat.repr n ++ "/" ++ Nat.repr d

/-- Model of the Mermaid `Renderer` configuration: an optional title, empty by
default (`NewRenderer` with no options). -/
structure MermaidRenderer where
  title : String
deriving DecidableEq, Repr

/-- Model of `mermaid.Renderer.Render`: the rendered text is returned instead
of being written to an `io.Writer` (in Go the returned `int` is the byte count
of exactly this text; write failures of the sink are outside the model).
Values are formatted with `%g` and the label retrieval error is propagated
(it is wrapped with `fmt.Errorf` context in Go; the wrapping text is not
modeled). -/
def MermaidRenderer.Render (r : MermaidRenderer) (c : Chart) : Except String String := do
  let labels := c.Labels
  let values ← labels.mapM fun label => (c.Value label).map formatG
  let head := "xychart-beta\n"
  let titleLine := if r.title ≠ "" then "  title \"" ++ r.title ++ "\"\n" else ""
  let xAxis := "  x-axis [\"" ++ String.intercalate "\", \"" labels ++ "\"]\n"
  let barLine := "  bar [" ++ String.intercalate ", " values ++ "]\n"
  .ok (head ++ titleLine ++ xAxis ++ barLine)

/-- The `smallTick` constant of the terminal renderer (`'▏'`). -/
def smallTick : Char := '▏'

/-- The `DefaultTick` constant of the terminal renderer (`'▇'`). -/
def DefaultTick : Char := '▇'

/-- Model of the terminal (`simple`) `Renderer` struct: the configuration
fields together with the per-render state that `Render` computes before
drawing rows (Go `int` fields become `ℤ`). -/
structure SimpleRenderer where
  maxLen : ℤ
  maxLabelLen : ℤ
  scale : Bool
  tick : Char
  longestLabelLen : ℤ
  longestValLen : ℤ
  maxVal : ℚ
  barLen : ℤ

/-- The pre-rounding bar length of `Renderer.bar`: `value/maxVal*barLen`
linearly, or `log10(value+1)/log10(maxVal+1)*barLen` in scaled mode.  The
transcendental `math.Log10` is abstracted as the `log10` parameter; nothing
proved below depends on its values. -/
def SimpleRenderer.barLength (r : SimpleRenderer) (log10 : ℚ → ℚ) (value : ℚ) : ℚ :=
  if r.scale then
    ratMul (ratDiv (log10 (ratAdd value 1)) (log10 (ratAdd r.maxVal 1))) (mkRat r.barLen 1)
  else
    ratMul (ratDiv value r.maxVal) (mkRat r.barLen 1)

/-- Model of `Renderer.bar`: round the bar length; at length `0` render the
distinguished small tick when the tick is still `DefaultTick` and nothing
otherwise; at other lengths repeat the tick rune (`int(length)` truncation;
a negative length would make Go's `strings.Repeat` panic, which is outside
the modeled domain and is mapped to the empty repetition). -/
def SimpleRenderer.bar (r : SimpleRenderer) (log10 : ℚ → ℚ) (value : ℚ) : String :=
  let length := goRound (r.barLength log10 value)
  if length = 0 then
    if r.tick = DefaultTick then String.mk [smallTick] else ""
  else
    String.mk (List.replicate length.num.toNat r.tick)

/-!
Theorems.  First the general-purpose bridge lemmas identifying the
kernel-reducible rational helpers with the standard field operations on `ℚ`,
then sanity checks, then one theorem (plus witness or counterexample) per
specification claim.
-/

theorem newChart_eq_new_with_options (sort : SortOption) (dir : SortDirection) (prec : ℤ) :
    (WithSorting sort dir Chart.new).bind (WithPrecision prec) = .ok (newChart sort dir prec) :=
  rfl

theorem rat_mul_den_eq_num (x : ℚ) : x * (x.den : ℚ) = (x.num : ℚ) :=
  Rat.mul_den_eq_num x

theorem ratMul_eq (x y : ℚ) : ratMul x y = x * y := by
  have hx : (x.den : ℚ) ≠ 0 := Nat.cast_ne_zero.mpr x.den_nz
  have hy : (y.den : ℚ) ≠ 0 := Nat.cast_ne_zero.mpr y.den_nz
  rw [ratMul, Rat.mkRat_eq_divInt, Rat.divInt_eq_div]
  push_cast
  rw [div_eq_iff (mul_ne_zero hx hy), ← rat_mul_den_eq_num x, ← rat_mul_den_eq_num y]
  ring

theorem ratAdd_eq (x y : ℚ) : ratAdd x y = x + y := by
  have hx : (x.den : ℚ) ≠ 0 := Nat.cast_ne_zero.mpr x.den_nz
  have hy : (y.den : ℚ) ≠ 0 := Nat.cast_ne_zero.mpr y.den_nz
  rw [ratAdd, Rat.mkRat_eq_divInt, Rat.divInt_eq_div]
  push_cast
  rw [div_eq_iff (mul_ne_zero hx hy), ← rat_mul_den_eq_num x, ← rat_mul_den_eq_num y]
  ring

theorem ratInv_eq (x : ℚ) : ratInv x = x⁻¹ := by
  rw [ratInv, Rat.inv_def']
  split_ifs with h
  · rw [Rat.mkRat_eq_divInt, Int.ofNat_natAbs_of_nonpos h.le]
    simp
  · rw [Rat.mkRat_eq_divInt, Int.natAbs_of_nonneg (not_lt.mp h)]

theorem ratDiv_eq (x y : ℚ) : ratDiv x y = x / y := by
  rw [ratDiv, ratMul_eq, ratInv_eq, div_eq_mul_inv]

theorem pow10_eq (n : ℕ) : pow10 n = (10 : ℚ) ^ n := by
  rw [pow10, Rat.mkRat_one, Int.ofNat_eq_natCast]
  push_cast
  ring

theorem ratFloor_eq (q : ℚ) : Rat.floor q = ⌊q⌋ :=
  rfl

/-- The model of `math.Round` agrees with the textbook round-half-away-from-
zero on rationals. -/
theorem goRound_eq (x : ℚ) :
    goRound x = if x < 0 then -((⌊-x + 1 / 2⌋ : ℤ) : ℚ) else ((⌊x + 1 / 2⌋ : ℤ) : ℚ) := by
  rw [goRound]
  have h2 : (mkRat 1 2 : ℚ) = 1 / 2 := by
    rw [Rat.mkRat_eq_divInt, Rat.divInt_eq_div]
    norm_num
  split_ifs with h
  · rw [Rat.mkRat_one, ratAdd_eq, h2, ratFloor_eq]
    push_cast
    ring
  · rw [Rat.mkRat_one, ratAdd_eq, h2, ratFloor_eq]

theorem lookup_isSome_iff_mem_fst (l : List (String × ℚ)) (k : String) :
    (l.lookup k).isSome ↔ k ∈ l.map Prod.fst := by
  simp only [List.lookup_isSome_iff, beq_iff_eq, List.mem_map]
  exact ⟨fun ⟨p, hp, he⟩ => ⟨p, hp, he.symm⟩, fun ⟨p, hp, he⟩ => ⟨p, hp, he.symm⟩⟩

theorem lookup_map_replace (l : List (String × ℚ)) (k k' : String) (v : ℚ) :
    (l.map fun e => if e.1 = k then (k, v) else e).lookup k'
      = if k' = k then (if (l.lookup k).isSome then some v else none)
        else l.lookup k' := by
  induction l with
  | nil => split_ifs <;> simp_all
  | cons e t ih =>
    obtain ⟨a, b⟩ := e
    rw [List.map_cons]
    by_cases hak : a = k
    · subst hak
      rw [show (if ((a, b) : String × ℚ).1 = a then (a, v) else (a, b)) = (a, v) from by simp]
      by_cases hk : k' = a
      · subst hk
        simp
      · rw [if_neg hk, List.lookup_cons, List.lookup_cons]
        simp only [beq_false_of_ne hk]
        rw [ih, if_neg hk]
    · rw [show (if ((a, b) : String × ℚ).1 = k then (k, v) else (a, b)) = (a, b) from by
        simp [hak]]
      by_cases hk : k' = a
      · subst hk
        have hkk : ¬ k' = k := fun h => hak (h ▸ rfl)
        simp [hkk]
      · rw [List.lookup_cons, List.lookup_cons]
        simp only [beq_false_of_ne hk]
        rw [ih]
        by_cases hkk : k' = k
        · subst hkk
          rw [if_pos rfl, if_pos rfl]
          simp only [beq_false_of_ne hk]
        · simp only [if_neg hkk]
          rw [List.lookup_cons]
          simp only [beq_false_of_ne hk]

theorem orderedMap.get_isSome_iff_mem_keys (m : orderedMap) (k : String) :
    (m.get k).isSome ↔ k ∈ m.keys :=
  lookup_isSome_iff_mem_fst m.entries k

theorem orderedMap.keys_set (m : orderedMap) (k : String) (v : ℚ) :
    (m.set k v).keys = if k ∈ m.keys then m.keys else m.keys ++ [k] := by
  by_cases h : k ∈ m.keys
  · have hs : (m.entries.lookup k).isSome = true :=
      (orderedMap.get_isSome_iff_mem_keys m k).mpr h
    rw [orderedMap.set, if_pos hs, if_pos h]
    show (m.entries.map _).map Prod.fst = m.entries.map Prod.fst
    rw [List.map_map]
    apply List.map_congr_left
    intro e _
    by_cases he : e.1 = k
    · simp [Function.comp, he]
    · simp [Function.comp, he]
  · have hs : ¬ (m.entries.lookup k).isSome = true := fun hx =>
      h ((orderedMap.get_isSome_iff_mem_keys m k).mp hx)
    rw [orderedMap.set, if_neg hs, if_neg h]
    show (m.entries ++ [(k, v)]).map Prod.fst = m.entries.map Prod.fst ++ [k]
    simp [orderedMap.keys]

theorem orderedMap.get_set (m : orderedMap) (k : String) (v : ℚ) (k' : String) :
    (m.set k v).get k' = if k' = k then some v else m.get k' := by
  by_cases hs : (m.entries.lookup k).isSome = true
  · rw [orderedMap.set, if_pos hs]
    show (m.entries.map _).lookup k' = _
    rw [lookup_map_replace]
    by_cases hk : k' = k
    · simp [hk, hs]
    · simp [hk, orderedMap.get]
  · rw [orderedMap.set, if_neg hs]
    show (m.entries ++ [(k, v)]).lookup k' = _
    rw [List.lookup_append]
    by_cases hk : k' = k
    · subst hk
      have : m.entries.lookup k' = none := by
        rcases h : m.entries.lookup k' with _ | val
        · rfl
        · exact absurd (by rw [h]; rfl) hs
      simp [this, List.lookup]
    · rcases h : m.entries.lookup k' with _ | val
      · simp [h, List.lookup, beq_false_of_ne hk, orderedMap.get, hk]
      · simp [h, orderedMap.get, hk]
example :
    ((newChart .sortByLabelNumeric .orderAsc 2).Set "1.2" 1 |>.Set "3" 1).Labels
      = ["1.2", "3"] := by decide
example :
    ((newChart .sortByValue .orderDesc 2).Set "a" 1 |>.Set "b" 2 |>.Set "c" 1).Labels
      = ["b", "c", "a"] := by decide
example : ((newChart .sortNone .orderNone 2).Set "a" (-5)).MaxValue = 0 := by decide
example : ((newChart .sortNone .orderNone 2).Set "a" (mkRat 1234 1000)).Value "a"
      = .ok (mkRat 123 100) := by decide
example : formatG (mkRat 1867 100) = "18.67" := by decide
example : formatG 1 = "1" := by decide
example : formatG (mkRat (-5) 2) = "-2.5" := by decide
example : ParseLine "$1,234.56 Revenue" = .ok (1, "234.56 Revenue") := by decide
example : ParseLine "not" = .error .noSeparator := by decide
example : ParseLine "42 " = .error .emptyLabel := by decide
example : ParseLine "$. x" = .error .emptyValue := by decide
example : ParseLine "1..2 x" = .error .invalidNumber := by decide
example : ParseLine "1.. x" = .ok (1, "x") := by decide
example : stringToInt "CWE-79" = 79 := by decide
example : stringToInt "-5" = -5 := by decide
example : stringToInt "1.2" = 0 := by decide
example : stringToInt "abc" = 0 := by decide

theorem applyOp_config (c : Chart) (op : ChartOp) :
    (applyOp c op).sort = c.sort ∧ (applyOp c op).sortDir = c.sortDir ∧
      (applyOp c op).p = c.p := by
  cases op with
  | set l v => exact ⟨rfl, rfl, rfl⟩
  | add l v =>
    cases h : c.data.get l with
    | some val => simp [applyOp, Chart.Add, h, Chart.Set]
    | none => simp [applyOp, Chart.Add, h, Chart.Set]

theorem applyOps_config (c : Chart) (ops : List ChartOp) :
    (applyOps c ops).sort = c.sort ∧ (applyOps c ops).sortDir = c.sortDir ∧
      (applyOps c ops).p = c.p := by
  induction ops generalizing c with
  | nil => exact ⟨rfl, rfl, rfl⟩
  | cons o t ih =>
    have h1 := applyOp_config c o
    have h2 := ih (applyOp c o)
    exact ⟨h2.1.trans h1.1, (h2.2.1).trans h1.2.1, (h2.2.2).trans h1.2.2⟩

theorem applyOp_keys (c : Chart) (op : ChartOp) :
    (applyOp c op).data.keys =
      if op.label ∈ c.data.keys then c.data.keys else c.data.keys ++ [op.label] := by
  cases op with
  | set l v => exact orderedMap.keys_set c.data l v
  | add l v =>
    cases h : c.data.get l with
    | some val =>
      show (Chart.Add c l v).data.keys = _
      simp only [Chart.Add, h, Chart.Set]
      exact orderedMap.keys_set c.data l _
    | none =>
      show (Chart.Add c l v).data.keys = _
      simp only [Chart.Add, h, Chart.Set]
      exact orderedMap.keys_set c.data l _

theorem applyOps_keys (c : Chart) (ops : List ChartOp) :
    (applyOps c ops).data.keys =
      ops.foldl (fun acc op => if op.label ∈ acc then acc else acc ++ [op.label])
        c.data.keys := by
  induction ops generalizing c with
  | nil => rfl
  | cons o t ih =>
    show (applyOps (applyOp c o) t).data.keys = _
    rw [ih, List.foldl_cons, applyOp_keys]

theorem keys_applyOps_newChart (s : SortOption) (d : SortDirection) (prec : ℤ)
    (ops : List ChartOp) :
    (applyOps (newChart s d prec) ops).data.keys
      = firstOccurrences (ops.map ChartOp.label) := by
  rw [applyOps_keys, firstOccurrences, List.foldl_map]
  rfl

theorem foldl_insert_nodup {α : Type} [DecidableEq α] (ls : List α) (acc : List α)
    (h : acc.Nodup) :
    (ls.foldl (fun acc l => if l ∈ acc then acc else acc ++ [l]) acc).Nodup := by
  induction ls generalizing acc with
  | nil => exact h
  | cons l t ih =>
    rw [List.foldl_cons]
    apply ih
    by_cases hm : l ∈ acc
    · simpa [hm]
    · rw [if_neg hm]
      simp [List.nodup_append, h, hm]

theorem mem_foldl_insert {α : Type} [DecidableEq α] (ls : List α) (acc : List α) (x : α) :
    x ∈ ls.foldl (fun acc l => if l ∈ acc then acc else acc ++ [l]) acc
      ↔ x ∈ acc ∨ x ∈ ls := by
  induction ls generalizing acc with
  | nil => simp
  | cons l t ih =>
    rw [List.foldl_cons, ih]
    by_cases hm : l ∈ acc
    · rw [if_pos hm]
      constructor
      · intro h
        exact h.elim (fun h => Or.inl h) (fun h => Or.inr (List.mem_cons_of_mem l h))
      · rintro (h | h)
        · exact Or.inl h
        · rcases List.mem_cons.mp h with rfl | h
          · exact Or.inl hm
          · exact Or.inr h
    · rw [if_neg hm]
      simp only [List.mem_append, List.mem_singleton, List.mem_cons]
      tauto

theorem firstOccurrences_nodup (ls : List String) : (firstOccurrences ls).Nodup :=
  foldl_insert_nodup ls [] List.nodup_nil

theorem mem_firstOccurrences (ls : List String) (x : String) :
    x ∈ firstOccurrences ls ↔ x ∈ ls := by
  rw [firstOccurrences, mem_foldl_insert]
  simp

/-- C1, counterexample.  The claim says `ParseLine "$1,234.56 Revenue"` returns
value `1234.56` and label `"Revenue"`.  It does not: the comma of the
thousands separator is itself a separator character and is the first one in
the line, so the value region is `"$1"` and the label is `"234.56 Revenue"`. -/
theorem C1_counterexample :
    ParseLine "$1,234.56 Revenue" ≠ .ok (123456 / 100, "Revenue") := by
  have heval : ParseLine "$1,234.56 Revenue" = .ok (1, "234.56 Revenue") := by decide
  rw [heval]
  intro h
  exact absurd (congrArg (fun r => match r with | .ok p => p.2 | .error _ => "") h) (by decide)

/-- C1, amended.  `ParseLine "$1,234.56 Revenue"` returns value `1` and label
`"234.56 Revenue"`: the first separator is the comma at index 2, the currency
symbol is stripped from the value region `"$1"`, and everything after the
comma becomes the label. -/
theorem C1_amended_parseLine_dollar_line :
    ParseLine "$1,234.56 Revenue" = .ok (1, "234.56 Revenue") := by
  decide

/-- C8.  Rendering a chart whose sorted labels are `["One", "Two"]` with
values `[1, 2]` through the Mermaid renderer with title `"T"` produces exactly
the four newline-terminated lines `xychart-beta`, `  title "T"`,
`  x-axis ["One", "Two"]`, `  bar [1, 2]`; with no title configured the title
line is omitted and the other three lines are unchanged. -/
theorem C8_mermaid_render_exact :
    (MermaidRenderer.Render ⟨"T"⟩ ((newChart .sortNone .orderNone 2).Set "One" 1 |>.Set "Two" 2)
      = .ok "xychart-beta\n  title \"T\"\n  x-axis [\"One\", \"Two\"]\n  bar [1, 2]\n") ∧
    (MermaidRenderer.Render ⟨""⟩ ((newChart .sortNone .orderNone 2).Set "One" 1 |>.Set "Two" 2)
      = .ok "xychart-beta\n  x-axis [\"One\", \"Two\"]\n  bar [1, 2]\n") := by
  constructor
  · decide
  · decide

/-- C9.  Whenever the rounded bar length of a terminal-renderer row is `0`,
the rendered bar is the single small-tick character if the configured tick
equals the `DefaultTick` constant, and the empty string if the tick was
configured to any other rune. -/
theorem C9_zero_length_bar (r : SimpleRenderer) (log10 : ℚ → ℚ) (value : ℚ)
    (h : goRound (r.barLength log10 value) = 0) :
    (r.tick = DefaultTick → r.bar log10 value = String.mk [smallTick]) ∧
    (r.tick ≠ DefaultTick → r.bar log10 value = "") := by
  constructor
  · intro ht
    simp [SimpleRenderer.bar, h, ht]
  · intro ht
    simp [SimpleRenderer.bar, h, ht]

/-- C9, witness: a linear-scale renderer over maximum value 10 with bar width
40 rendering value 0 gets rounded length 0; with the default tick it draws the
small tick, with a custom tick `*` it draws nothing. -/
theorem C9_zero_length_bar_witness :
    ((⟨80, 20, false, DefaultTick, 0, 0, 10, 40⟩ : SimpleRenderer).bar (fun _ => 0) 0
      = String.mk [smallTick]) ∧
    ((⟨80, 20, false, '*', 0, 0, 10, 40⟩ : SimpleRenderer).bar (fun _ => 0) 0 = "") :=
  ⟨(C9_zero_length_bar ⟨80, 20, false, DefaultTick, 0, 0, 10, 40⟩ (fun _ => 0) 0 (by decide)).1
      rfl,
   (C9_zero_length_bar ⟨80, 20, false, '*', 0, 0, 10, 40⟩ (fun _ => 0) 0 (by decide)).2
      (by decide)⟩

/-- C10.  `WithPrecision` with a negative precision succeeds without error and
clamps the precision to `0`, so the chart's `p` field becomes `10^0 = 1` and
values are rounded to whole numbers; the `precision ≥ 0` invariant holds for
every resulting chart. -/
theorem C10_negative_precision_clamped (p : ℤ) (c : Chart) (h : p < 0) :
    WithPrecision p c = .ok { c with p := 1 } := by
  rw [WithPrecision, if_pos h]
  rfl

/-- C10, witness: precision `-3` on a fresh chart. -/
theorem C10_negative_precision_clamped_witness :
    WithPrecision (-3) Chart.new = .ok { Chart.new with p := 1 } :=
  C10_negative_precision_clamped (-3) Chart.new (by decide)

/-- C5, counterexample.  The claim says a chart under `SortNone` always lists
labels in first-insertion order; but `Labels` reverses even the unsorted key
list when the direction is `OrderDesc`, so a `SortNone`/`OrderDesc` chart
violates it. -/
theorem C5_counterexample :
    (applyOps (newChart .sortNone .orderDesc 2) [.set "a" 1, .set "b" 2]).Labels
      ≠ firstOccurrences ([ChartOp.set "a" 1, ChartOp.set "b" 2].map ChartOp.label) := by
  decide

/-- C5, amended.  For every sequence of `Set`/`Add` operations on a fresh
`SortNone` chart, the key list has no duplicates, and `Labels` is the
first-insertion order of the touched labels when the direction is not
`OrderDesc`, and its reverse when the direction is `OrderDesc`; later updates
to existing labels never move a label's position. -/
theorem C5_amended_sortNone_insertion_order (dir : SortDirection) (prec : ℤ)
    (ops : List ChartOp) :
    (applyOps (newChart .sortNone dir prec) ops).data.keys.Nodup ∧
    (dir ≠ .orderDesc →
      (applyOps (newChart .sortNone dir prec) ops).Labels
        = firstOccurrences (ops.map ChartOp.label)) ∧
    (dir = .orderDesc →
      (applyOps (newChart .sortNone dir prec) ops).Labels
        = (firstOccurrences (ops.map ChartOp.label)).reverse) := by
  have hkeys := keys_applyOps_newChart .sortNone dir prec ops
  have hcfg := applyOps_config (newChart .sortNone dir prec) ops
  have hsort : (applyOps (newChart .sortNone dir prec) ops).sort = .sortNone := hcfg.1
  refine ⟨?_, ?_, ?_⟩
  · rw [hkeys]
    exact firstOccurrences_nodup _
  · intro h
    have hdir : (applyOps (newChart .sortNone dir prec) ops).sortDir ≠ .orderDesc := by
      rw [hcfg.2.1]
      exact h
    simp [Chart.Labels, hsort, hdir, hkeys]
  · intro h
    have hdir : (applyOps (newChart .sortNone dir prec) ops).sortDir = .orderDesc := by
      rw [hcfg.2.1]
      exact h
    simp [Chart.Labels, hsort, hdir, hkeys]

/-- C5, witness: three operations including an `Add` update to an existing
label; the labels stay in first-insertion order `["a", "b"]`. -/
theorem C5_amended_witness :
    (applyOps (newChart .sortNone .orderAsc 2)
        [.set "a" 1, .add "a" 2, .set "b" 5]).Labels
      = firstOccurrences ([ChartOp.set "a" 1, ChartOp.add "a" 2,
          ChartOp.set "b" 5].map ChartOp.label) :=
  (C5_amended_sortNone_insertion_order .orderAsc 2
    [.set "a" 1, .add "a" 2, .set "b" 5]).2.1 (by decide)

/-- C7.  `Value` returns the `unknown label` error exactly when the label was
never touched by a `Set`/`Add` operation; otherwise it returns the stored
value rounded to the configured precision `p`, i.e. `round(v*10^p)/10^p`. -/
theorem C7_value_unknown_or_rounded (s : SortOption) (d : SortDirection) (p : ℕ)
    (ops : List ChartOp) (label : String) :
    (label ∉ ops.map ChartOp.label →
      (applyOps (newChart s d (p : ℤ)) ops).Value label = .error "unknown label") ∧
    (label ∈ ops.map ChartOp.label →
      ∃ v, (applyOps (newChart s d (p : ℤ)) ops).data.get label = some v ∧
        (applyOps (newChart s d (p : ℤ)) ops).Value label
          = .ok (goRound (v * 10 ^ p) / 10 ^ p)) := by
  have hkeys := keys_applyOps_newChart s d (p : ℤ) ops
  have hp : (applyOps (newChart s d (p : ℤ)) ops).p = (10 : ℚ) ^ p := by
    rw [(applyOps_config (newChart s d (p : ℤ)) ops).2.2]
    show pow10 (if (p : ℤ) < 0 then 0 else (p : ℤ)).toNat = _
    rw [if_neg (not_lt.mpr (Int.natCast_nonneg p)), Int.toNat_natCast, pow10_eq]
  constructor
  · intro h
    have hn : (applyOps (newChart s d (p : ℤ)) ops).data.get label = none := by
      rw [← Option.not_isSome_iff_eq_none, orderedMap.get_isSome_iff_mem_keys, hkeys,
        mem_firstOccurrences]
      exact h
    simp [Chart.Value, hn]
  · intro h
    have hs : ((applyOps (newChart s d (p : ℤ)) ops).data.get label).isSome := by
      rw [orderedMap.get_isSome_iff_mem_keys, hkeys, mem_firstOccurrences]
      exact h
    obtain ⟨v, hv⟩ := Option.isSome_iff_exists.mp hs
    exact ⟨v, hv, by simp [Chart.Value, hv, ratDiv_eq, ratMul_eq, hp]⟩

/-- C7, witness: after `Set "a" 1.234` on a precision-2 chart, `Value "b"`
is the `unknown label` error and `Value "a"` rounds to `1.23`. -/
theorem C7_value_unknown_or_rounded_witness :
    (applyOps (newChart .sortNone .orderNone (2 : ℕ))
        [.set "a" (mkRat 1234 1000)]).Value "b" = .error "unknown label" :=
  (C7_value_unknown_or_rounded .sortNone .orderNone 2
    [.set "a" (mkRat 1234 1000)] "b").1 (by decide)

theorem cmpCompare_le_zero_iff {β : Type} [LinearOrder β] (x y : β) :
    cmpCompare x y ≤ 0 ↔ x ≤ y := by
  rw [cmpCompare]
  split_ifs with h1 h2
  · simp [h1.le]
  · constructor
    · intro h
      norm_num at h
    · intro h
      exact absurd h (not_le.mpr h2)
  · simp [le_of_not_lt h2]

theorem cmpCompare_eq_zero_iff {β : Type} [LinearOrder β] (x y : β) :
    cmpCompare x y = 0 ↔ x = y := by
  rw [cmpCompare]
  split_ifs with h1 h2
  · constructor
    · intro h
      norm_num at h
    · intro h
      exact absurd h h1.ne
  · constructor
    · intro h
      norm_num at h
    · intro h
      exact absurd h h2.ne'
  · simp [le_antisymm (le_of_not_lt h2) (le_of_not_lt h1)]

section KeyedSort

variable {α β : Type} [LinearOrder β]

theorem sortStableFunc_keyed_perm (f : α → β) (l : List α) :
    (sortStableFunc (fun i j => cmpCompare (f i) (f j)) l).Perm l :=
  List.perm_insertionSort _ l

theorem sortStableFunc_keyed_pairwise (f : α → β) (l : List α) :
    (sortStableFunc (fun i j => cmpCompare (f i) (f j)) l).Pairwise
      (fun a b => f a ≤ f b) := by
  haveI ht : IsTotal α (fun a b => cmpCompare (f a) (f b) ≤ 0) :=
    ⟨fun a b => by
      rcases le_total (f a) (f b) with h | h
      · exact Or.inl ((cmpCompare_le_zero_iff _ _).mpr h)
      · exact Or.inr ((cmpCompare_le_zero_iff _ _).mpr h)⟩
  haveI htr : IsTrans α (fun a b => cmpCompare (f a) (f b) ≤ 0) :=
    ⟨fun a b c hab hbc => (cmpCompare_le_zero_iff _ _).mpr
      (le_trans ((cmpCompare_le_zero_iff _ _).mp hab) ((cmpCompare_le_zero_iff _ _).mp hbc))⟩
  have hs := List.sorted_insertionSort (fun a b => cmpCompare (f a) (f b) ≤ 0) l
  exact hs.imp fun h => (cmpCompare_le_zero_iff _ _).mp h

theorem sortStableFunc_keyed_stable (f : α → β) (l : List α) (a b : α)
    (hab : f a ≤ f b) (h : [a, b].Sublist l) :
    [a, b].Sublist (sortStableFunc (fun i j => cmpCompare (f i) (f j)) l) :=
  List.pair_sublist_insertionSort ((cmpCompare_le_zero_iff _ _).mpr hab) h

end KeyedSort

/-- For a chart with an active sort option, `Labels` is the stable sort by the
chart's comparator, reversed when the direction is `OrderDesc`. -/
theorem Labels_eq_sorted (c : Chart) (h : c.sort ≠ .sortNone) :
    c.Labels = if c.sortDir = .orderDesc
      then (sortStableFunc (chartCmp c) c.data.keys).reverse
      else sortStableFunc (chartCmp c) c.data.keys := by
  rcases hs : c.sort with _ | _ | _ | _
  · exact absurd hs h
  · simp [Chart.Labels, chartCmp, hs]
  · simp [Chart.Labels, chartCmp, hs]
  · simp [Chart.Labels, chartCmp, hs]

/-- C3, counterexample.  The claim's key (digits concatenated, non-digits
ignored) gives `"1.2" ↦ 12` and `"3" ↦ 3`, so a stable sort by that key lists
`"3"` before `"1.2"`; the code's `stringToInt` maps `"1.2"` to `0` (the dot
survives `floatRE` and makes `Atoi` fail), so `Labels` keeps `"1.2"` first. -/
theorem C3_counterexample :
    ((newChart .sortByLabelNumeric .orderAsc 2).Set "1.2" 1 |>.Set "3" 1).Labels
      ≠ sortStableFunc (fun i j => cmpCompare (specNumericKey i) (specNumericKey j))
          ((newChart .sortByLabelNumeric .orderAsc 2).Set "1.2" 1 |>.Set "3" 1).data.keys := by
  decide

/-- C3, amended.  For every chart configured with `ByLabelNumeric` sorting and
a non-descending direction, `Labels()` is a stable sort of the insertion-order
keys by the integer key `stringToInt`: the whole label parsed as a 64-bit
integer when it is a well-formed optionally-signed decimal number in range,
otherwise the concatenation of the label's digit-and-dot characters parsed the
same way, with key `0` when that remainder is empty, malformed (e.g. contains
a dot), or out of 64-bit range.  Concretely: the output is a permutation of
the keys, it is nondecreasing in the key, and label pairs with equal keys keep
their relative order. -/
theorem C3_amended_sorted_by_stringToInt (c : Chart)
    (hsort : c.sort = .sortByLabelNumeric) (hdir : c.sortDir ≠ .orderDesc) :
    c.Labels.Perm c.data.keys ∧
    c.Labels.Pairwise (fun a b => stringToInt a ≤ stringToInt b) ∧
    ∀ a b, [a, b].Sublist c.data.keys → stringToInt a = stringToInt b →
      [a, b].Sublist c.Labels := by
  have hL : c.Labels
      = sortStableFunc (fun i j => cmpCompare (stringToInt i) (stringToInt j))
          c.data.keys := by
    simp [Chart.Labels, hsort, hdir]
  rw [hL]
  exact ⟨sortStableFunc_keyed_perm stringToInt c.data.keys,
    sortStableFunc_keyed_pairwise stringToInt c.data.keys,
    fun a b hs he => sortStableFunc_keyed_stable stringToInt c.data.keys a b (le_of_eq he) hs⟩

/-- C3, witness: on the concrete `ByLabelNumeric` chart with labels
`["CWE-200", "CWE-22"]`, the sorted labels are a permutation of the keys. -/
theorem C3_amended_witness :
    ((newChart .sortByLabelNumeric .orderAsc 2).Set "CWE-200" 2 |>.Set "CWE-22" 1).Labels.Perm
      ((newChart .sortByLabelNumeric .orderAsc 2).Set "CWE-200" 2
        |>.Set "CWE-22" 1).data.keys :=
  (C3_amended_sorted_by_stringToInt
    ((newChart .sortByLabelNumeric .orderAsc 2).Set "CWE-200" 2 |>.Set "CWE-22" 1)
    rfl (by decide)).1

/-- C6.  For a chart sorted `ByLabel`, `ByLabelNumeric` or `ByValue` and a
pair of labels with equal sort keys appearing in insertion order `a` before
`b`: with a non-descending direction the pair keeps that order in `Labels`
(stability); with `OrderDesc` the whole sorted sequence is reversed, so the
pair appears in reversed order `b` before `a`. -/
theorem C6_stable_ties_desc_reversed (c : Chart) (hsort : c.sort ≠ .sortNone)
    (a b : String) (hk : chartCmp c a b = 0) (hs : [a, b].Sublist c.data.keys) :
    (c.sortDir ≠ .orderDesc → [a, b].Sublist c.Labels) ∧
    (c.sortDir = .orderDesc →
      c.Labels = (sortStableFunc (chartCmp c) c.data.keys).reverse ∧
        [b, a].Sublist c.Labels) := by
  have hL := Labels_eq_sorted c hsort
  have hstab : [a, b].Sublist (sortStableFunc (chartCmp c) c.data.keys) := by
    rcases hcase : c.sort with _ | _ | _ | _
    · exact absurd hcase hsort
    · have hcc : chartCmp c = fun i j => cmpCompare (id i) (id j) := by
        funext i j
        simp [chartCmp, hcase]
      rw [hcc] at hk ⊢
      exact sortStableFunc_keyed_stable id c.data.keys a b
        (le_of_eq ((cmpCompare_eq_zero_iff _ _).mp hk)) hs
    · have hcc : chartCmp c = fun i j => cmpCompare (stringToInt i) (stringToInt j) := by
        funext i j
        simp [chartCmp, hcase]
      rw [hcc] at hk ⊢
      exact sortStableFunc_keyed_stable stringToInt c.data.keys a b
        (le_of_eq ((cmpCompare_eq_zero_iff _ _).mp hk)) hs
    · have hcc : chartCmp c
          = fun i j => cmpCompare ((c.data.get i).getD 0) ((c.data.get j).getD 0) := by
        funext i j
        simp [chartCmp, hcase]
      rw [hcc] at hk ⊢
      exact sortStableFunc_keyed_stable (fun l => (c.data.get l).getD 0) c.data.keys a b
        (le_of_eq ((cmpCompare_eq_zero_iff _ _).mp hk)) hs
  constructor
  · intro hd
    rw [hL, if_neg hd]
    exact hstab
  · intro hd
    rw [hL, if_pos hd]
    exact ⟨rfl, hstab.reverse⟩

/-- C6, witness: a `ByValue` chart with equal values `1` for `"x"` then
`"y"`; ascending direction keeps `["x", "y"]` as a subsequence of the
output. -/
theorem C6_stable_ties_desc_reversed_witness :
    ["x", "y"].Sublist ((newChart .sortByValue .orderAsc 2).Set "x" 1
      |>.Set "y" 1).Labels :=
  (C6_stable_ties_desc_reversed
    ((newChart .sortByValue .orderAsc 2).Set "x" 1 |>.Set "y" 1)
    (by decide) "x" "y" (by decide) (by decide)).1 (by decide)

theorem goRound_zero : goRound 0 = 0 := by decide

theorem goRound_mono : Monotone goRound := by
  intro x y hxy
  rw [goRound_eq, goRound_eq]
  split_ifs with hx hy hy
  · have h1 : ⌊-y + 1 / 2⌋ ≤ ⌊-x + 1 / 2⌋ := Int.floor_le_floor (by linarith)
    exact neg_le_neg (Int.cast_le.mpr h1)
  · have h1 : (0 : ℤ) ≤ ⌊-x + 1 / 2⌋ := Int.le_floor.mpr (by push_cast; linarith)
    have h2 : (0 : ℤ) ≤ ⌊y + 1 / 2⌋ := Int.le_floor.mpr (by push_cast; linarith [not_lt.mp hy])
    have h1' : (0 : ℚ) ≤ ((⌊-x + 1 / 2⌋ : ℤ) : ℚ) := by exact_mod_cast h1
    have h2' : (0 : ℚ) ≤ ((⌊y + 1 / 2⌋ : ℤ) : ℚ) := by exact_mod_cast h2
    linarith
  · exfalso
    have := not_lt.mp hx
    linarith
  · exact Int.cast_le.mpr (Int.floor_le_floor (by linarith))

/-- C4, counterexample.  The claim says `MaxValue` returns the maximum rounded
value across all labels; on a chart whose only label has value `-5`, the
maximum rounded value is `-5`, but `MaxValue` starts its fold at `0.0` and
returns `0`. -/
theorem C4_counterexample :
    ((newChart .sortNone .orderNone 2).Set "a" (-5)).data.keys = ["a"] ∧
    ((newChart .sortNone .orderNone 2).Set "a" (-5)).Value "a" = .ok (-5) ∧
    ((newChart .sortNone .orderNone 2).Set "a" (-5)).MaxValue = 0 := by
  refine ⟨by decide, by decide, by decide⟩

/-- C4, amended.  For every chart with positive `p` field (every chart built
through `New`/`WithPrecision` has `p = 10^precision > 0`), `MaxValue()`
returns the maximum of `0` and the rounded values of all labels — so it is
the maximum rounded value across all labels whenever some value is
nonnegative, `0` on an empty chart, and `0` (not the maximum) when every
value is negative. -/
theorem C4_amended_maxValue_fold (c : Chart) (hp : 0 < c.p) :
    c.MaxValue
      = (c.data.keys.map fun l =>
          goRound (((c.data.get l).getD 0) * c.p) / c.p).foldl max 0 := by
  have hvals : c.data.values = c.data.keys.map fun k => (c.data.get k).getD 0 := rfl
  by_cases hnil : c.data.values = []
  · have hkeys : c.data.keys = [] := by
      rw [hvals] at hnil
      exact List.map_eq_nil_iff.mp hnil
    simp [Chart.MaxValue, hnil, hkeys]
  · have hfold : ∀ (l : List ℚ) (z : ℚ),
        l.foldl (fun m v => if m < v then v else m) z = l.foldl max z := by
      intro l
      induction l with
      | nil => intro z; rfl
      | cons v t ih =>
        intro z
        rw [List.foldl_cons, List.foldl_cons, ih]
        congr 1
        by_cases h : z < v
        · rw [if_pos h, max_eq_right h.le]
        · rw [if_neg h, max_eq_left (not_lt.mp h)]
    have hmono : Monotone fun x : ℚ => goRound (x * c.p) / c.p := by
      intro u w huw
      exact (div_le_div_iff_of_pos_right hp).mpr
        (goRound_mono (mul_le_mul_of_nonneg_right huw hp.le))
    have key : ∀ (l : List ℚ) (z : ℚ),
        goRound ((l.foldl max z) * c.p) / c.p
          = (l.map fun v => goRound (v * c.p) / c.p).foldl max
              (goRound (z * c.p) / c.p) := by
      intro l
      induction l with
      | nil => intro z; rfl
      | cons v t ih =>
        intro z
        rw [List.foldl_cons, List.map_cons, List.foldl_cons, ih]
        congr 1
        exact hmono.map_max
    have h0 : goRound (0 * c.p) / c.p = 0 := by
      rw [zero_mul, goRound_zero, zero_div]
    show (if c.data.values = [] then (0 : ℚ)
        else ratDiv (goRound (ratMul
          (c.data.values.foldl (fun m v => if m < v then v else m) 0) c.p)) c.p) = _
    rw [if_neg hnil, ratDiv_eq, ratMul_eq, hfold, key, h0, hvals, List.map_map]
    rfl

/-- C4, witness: on the two-label chart `{a ↦ -5, b ↦ 7}` with precision 2,
`MaxValue` equals the fold of the rounded label values with initial value
`0`. -/
theorem C4_amended_maxValue_fold_witness :
    ((newChart .sortNone .orderNone 2).Set "a" (-5) |>.Set "b" 7).MaxValue
      = (((newChart .sortNone .orderNone 2).Set "a" (-5) |>.Set "b" 7).data.keys.map
          fun l => goRound ((((((newChart .sortNone .orderNone 2).Set "a" (-5)
              |>.Set "b" 7)).data.get l).getD 0)
            * ((newChart .sortNone .orderNone 2).Set "a" (-5) |>.Set "b" 7).p)
          / ((newChart .sortNone .orderNone 2).Set "a" (-5) |>.Set "b" 7).p).foldl max 0 :=
  C4_amended_maxValue_fold ((newChart .sortNone .orderNone 2).Set "a" (-5) |>.Set "b" 7)
    (by decide)

theorem findIdx?_eq_some_iff_isFirstSepIdx (cs : List Char) (i : ℕ) :
    cs.findIdx? dataSepRE = some i ↔ IsFirstSepIdx cs i := by
  rw [List.findIdx?_eq_some_iff_getElem, IsFirstSepIdx]
  constructor
  · rintro ⟨h, hp, hprev⟩
    refine ⟨h, ?_, ?_⟩
    · rw [List.getD_eq_getElem _ _ h]
      exact hp
    · intro j hj
      rw [List.getD_eq_getElem _ _ (lt_trans hj h)]
      exact Bool.not_eq_true _ |>.mp (hprev j hj)
  · rintro ⟨h, hp, hprev⟩
    refine ⟨h, ?_, ?_⟩
    · rw [← List.getD_eq_getElem _ ' ' h]
      exact hp
    · intro j hj
      rw [← List.getD_eq_getElem _ ' ' (lt_trans hj h)]
      exact (Bool.not_eq_true _).mpr (hprev j hj)

/-- C2, counterexample.  The line `"1..\nx"` contains none of the claim's
seven separator characters, so the claim predicts the `NoSeparator` failure
(and even reading the newline as a separator, its stripped value region
`"1.."` has two dots and does not parse, so the claim predicts
`InvalidNumber`).  The code instead succeeds with value `1` and label `"x"`:
the regexp class `\s` also matches `\n`, and one trailing dot of `"1.."` is
stripped before parsing, leaving the parseable `"1."`. -/
theorem C2_counterexample :
    (∀ c ∈ "1..\nx".toList,
      c ≠ ' ' ∧ c ≠ '\t' ∧ c ≠ ',' ∧ c ≠ ';' ∧ c ≠ ':' ∧ c ≠ '|' ∧ c ≠ '#') ∧
    ParseLine "1..\nx" = .ok (1, "x") := by
  refine ⟨by decide, by decide⟩

/-- C2, amended.  Full characterization of `ParseLine`: with the separator set
of the code's regexp `[\s,;:|#]` (space, tab, newline, form feed, carriage
return, comma, semicolon, colon, pipe, `#`), the result is `NoSeparator` iff
the line contains no separator; otherwise, splitting at the first separator
position `i`, the result is `EmptyLabel` iff the trimmed label region is
empty; then `EmptyValue` iff the value region is empty after keeping only
digit/dot characters and stripping one trailing dot; then `InvalidNumber` iff
that stripped region does not parse as a float; and otherwise the parsed value
and trimmed label are returned. -/
theorem C2_amended_parseLine_characterization (line : String) :
    (ParseLine line = .error .noSeparator ↔
      ∀ c ∈ line.toList, dataSepRE c = false) ∧
    (∀ i, IsFirstSepIdx line.toList i →
      ((ParseLine line = .error .emptyLabel ↔
          trimSpace (line.toList.drop (i + 1)) = []) ∧
       (trimSpace (line.toList.drop (i + 1)) ≠ [] →
         ((ParseLine line = .error .emptyValue ↔
             trimSuffixDot ((trimSpace (line.toList.take i)).filter floatRE) = []) ∧
          (trimSuffixDot ((trimSpace (line.toList.take i)).filter floatRE) ≠ [] →
            ((ParseLine line = .error .invalidNumber ↔
                parseFloat
                  (trimSuffixDot ((trimSpace (line.toList.take i)).filter floatRE))
                  = none) ∧
             (∀ q,
                parseFloat
                  (trimSuffixDot ((trimSpace (line.toList.take i)).filter floatRE))
                  = some q →
                ParseLine line
                  = .ok (q, (trimSpace (line.toList.drop (i + 1))).asString)))))))) := by
  have hPL0 : ParseLine line =
      (match line.toList.findIdx? dataSepRE with
       | none => Except.error ParseError.noSeparator
       | some i =>
         if trimSpace (line.toList.drop (i + 1)) = [] then Except.error ParseError.emptyLabel
         else if trimSuffixDot ((trimSpace (line.toList.take i)).filter floatRE) = []
           then Except.error ParseError.emptyValue
         else
           match parseFloat
               (trimSuffixDot ((trimSpace (line.toList.take i)).filter floatRE)) with
           | none => Except.error ParseError.invalidNumber
           | some q => Except.ok (q, (trimSpace (line.toList.drop (i + 1))).asString)) :=
    rfl
  constructor
  · constructor
    · intro h
      rcases hf : line.toList.findIdx? dataSepRE with _ | i
      · exact List.findIdx?_eq_none_iff.mp hf
      · exfalso
        rw [hPL0] at h
        simp only [hf] at h
        split_ifs at h with h1 h2
        · exact ParseError.noConfusion (Except.error.inj h)
        · exact ParseError.noConfusion (Except.error.inj h)
        · cases hpf : parseFloat
              (trimSuffixDot ((trimSpace (line.toList.take i)).filter floatRE)) <;>
            rw [hpf] at h <;> simp at h
    · intro h
      rw [hPL0, List.findIdx?_eq_none_iff.mpr h]
  · intro i hi
    have hf : line.toList.findIdx? dataSepRE = some i :=
      (findIdx?_eq_some_iff_isFirstSepIdx _ _).mpr hi
    have hPL : ParseLine line =
        (if trimSpace (line.toList.drop (i + 1)) = [] then .error .emptyLabel
         else if trimSuffixDot ((trimSpace (line.toList.take i)).filter floatRE) = []
           then .error .emptyValue
         else
           match parseFloat
               (trimSuffixDot ((trimSpace (line.toList.take i)).filter floatRE)) with
           | none => .error .invalidNumber
           | some q => .ok (q, (trimSpace (line.toList.drop (i + 1))).asString)) := by
      rw [hPL0]
      simp only [hf]
    by_cases hl : trimSpace (line.toList.drop (i + 1)) = []
    · have hres : ParseLine line = .error .emptyLabel := by rw [hPL, if_pos hl]
      exact ⟨⟨fun _ => hl, fun _ => hres⟩, fun hl' => absurd hl hl'⟩
    · by_cases hv : trimSuffixDot ((trimSpace (line.toList.take i)).filter floatRE) = []
      · have hres : ParseLine line = .error .emptyValue := by
          rw [hPL, if_neg hl, if_pos hv]
        exact ⟨⟨fun h => absurd (Except.error.inj (hres.symm.trans h)) (by decide),
            fun h => absurd h hl⟩,
          fun _ => ⟨⟨fun _ => hv, fun _ => hres⟩, fun hv' => absurd hv hv'⟩⟩
      · cases hpf : parseFloat
            (trimSuffixDot ((trimSpace (line.toList.take i)).filter floatRE)) with
        | none =>
          have hres : ParseLine line = .error .invalidNumber := by
            rw [hPL, if_neg hl, if_neg hv]
            simp only [hpf]
          exact ⟨⟨fun h => absurd (Except.error.inj (hres.symm.trans h)) (by decide),
              fun h => absurd h hl⟩,
            fun _ => ⟨⟨fun h => absurd (Except.error.inj (hres.symm.trans h)) (by decide),
                fun h => absurd h hv⟩,
              fun _ => ⟨⟨fun _ => rfl, fun _ => hres⟩,
                fun q hq => Option.noConfusion hq⟩⟩⟩
        | some q0 =>
          have hres : ParseLine line
              = .ok (q0, (trimSpace (line.toList.drop (i + 1))).asString) := by
            rw [hPL, if_neg hl, if_neg hv]
            simp only [hpf]
          exact ⟨⟨fun h => Except.noConfusion (hres.symm.trans h), fun h => absurd h hl⟩,
            fun _ => ⟨⟨fun h => Except.noConfusion (hres.symm.trans h),
                fun h => absurd h hv⟩,
              fun _ => ⟨⟨fun h => Except.noConfusion (hres.symm.trans h),
                  fun h => Option.noConfusion h⟩,
                fun q hq => by rw [hres, Option.some.inj hq]⟩⟩⟩

/-- C2, witness: on `"12 x"` the first separator is the space at index 2 and
the value `"12"` parses, so `ParseLine` succeeds with `(12, "x")`. -/
theorem C2_amended_witness :
    ParseLine "12 x" = .ok (mkRat 12 1, "x") :=
  ((((C2_amended_parseLine_characterization "12 x").2 2 (by decide)).2
    (by decide)).2 (by decide)).2 (mkRat 12 1) (by decide)

end ChartSpec
